import Mathlib

/-!
Shallow embedding of the `contour` geospatial extraction pipeline:
`backend/gpx_parser.py` (track parsing and decimation) and
`backend/terrain.py` (raster normalization, dimension cap, heightmap squaring).

Numeric pixel and coordinate values are modelled as rationals (`ℚ`);
`numpy`'s `astype(np.uint8)` on non-negative in-range data is floor;
Python's `int()` on a non-negative float is floor; machine-level float
rounding is not modelled (all arithmetic in the source stays well within
double precision on the inputs the claims concern).
-/

/-- Minimum of a non-empty list, as Python's `min` / `numpy`'s `.min()`.
The `[]` case is never reached by guarded call sites; it returns 0. -/
def listMin : List ℚ → ℚ
  | [] => 0
  | x :: xs => xs.foldl min x

/-- Maximum of a non-empty list, as Python's `max` / `numpy`'s `.max()`.
The `[]` case is never reached by guarded call sites; it returns 0. -/
def listMax : List ℚ → ℚ
  | [] => 0
  | x :: xs => xs.foldl max x

/-- One GPX track point: latitude, longitude, elevation
(`gpx_parser.py` builds these from the parallel lists). -/
structure TrackPoint where
  lat : ℚ
  lon : ℚ
  ele : ℚ
deriving DecidableEq, Repr

instance : Inhabited TrackPoint := ⟨⟨0, 0, 0⟩⟩

/-- `gpx_parser.py` lines 52-67: the strided pass
`for i in range(0, total_points, simplify_factor)` followed by the
unconditional append of the last sample when `(total_points - 1)` is not a
multiple of the stride.  `range(0, n, s)` enumerates `i * s` for
`i < (n + s - 1) / s` (for `s ≥ 1`). -/
def decimate (pts : List TrackPoint) (s : ℕ) : List TrackPoint :=
  let count := pts.length
  let strided := (List.range ((count + s - 1) / s)).map (fun i => pts.getD (i * s) default)
  if 0 < count ∧ (count - 1) % s ≠ 0 then
    strided ++ [pts.getD (count - 1) default]
  else
    strided

/-- Geographic bounding box, `gpx_parser.py` lines 69-83. -/
structure GeoBounds where
  north : ℚ
  south : ℚ
  east : ℚ
  west : ℚ
deriving DecidableEq, Repr

/-- `gpx_parser.py` lines 70-83: bounds over the FULL point lists
(`all_lats` / `all_lons`), with the all-zero sentinel for an empty track. -/
def trackBounds (pts : List TrackPoint) : GeoBounds :=
  if pts.isEmpty then ⟨0, 0, 0, 0⟩
  else
    ⟨listMax (pts.map TrackPoint.lat), listMin (pts.map TrackPoint.lat),
     listMax (pts.map TrackPoint.lon), listMin (pts.map TrackPoint.lon)⟩

/-- `gpx_parser.py` lines 77-83: elevation range `(min, max)` over the full
elevation list, `(0, 0)` for an empty track. -/
def elevationRange (pts : List TrackPoint) : ℚ × ℚ :=
  if pts.isEmpty then (0, 0)
  else (listMin (pts.map TrackPoint.ele), listMax (pts.map TrackPoint.ele))

/-- Abstract error taxonomy of the pipeline (spec section 7): `parseError`
covers the exceptions raised on malformed input (`xml.etree` `ParseError`
on an unparsable document, the conversion error on a missing coordinate
attribute, an unreadable raster), `configurationError` the error raised
when the rasterio capability is missing. -/
inductive ExtractError where
  | parseError
  | configurationError
deriving DecidableEq, Repr

/-- One `<trkpt>` element as read from the document: optional `lat` / `lon`
attributes (required by the format, possibly absent in a malformed file)
and an optional `<ele>` child. -/
structure RawPoint where
  lat : Option ℚ
  lon : Option ℚ
  ele : Option ℚ
deriving DecidableEq, Repr

/-- The outcome of `ET.parse`: either the document does not parse at all,
or it yields an optional track name and a point list in document order. -/
inductive GpxDoc where
  | malformed
  | doc (name : Option String) (points : List RawPoint)

/-- `gpx_parser.py` lines 43-46: `float(trkpt.get('lat'))` /
`float(trkpt.get('lon'))` fail when the attribute is absent
(`trkpt.get` returns `None`); `ele` defaults to 0 when absent. -/
def convPoint (p : RawPoint) : Except ExtractError TrackPoint :=
  match p.lat with
  | none => .error .parseError
  | some la =>
    match p.lon with
    | none => .error .parseError
    | some lo => .ok ⟨la, lo, p.ele.getD 0⟩

/-- The point-reading loop of `gpx_parser.py` lines 42-50: converts the
trackpoints in document order, raising at the first point with a missing
coordinate. -/
def convPoints : List RawPoint → Except ExtractError (List TrackPoint)
  | [] => .ok []
  | p :: ps =>
    match convPoint p with
    | .error e => .error e
    | .ok q =>
      match convPoints ps with
      | .error e => .error e
      | .ok qs => .ok (q :: qs)

/-- Result structure of `parse_gpx` (its returned dict). -/
structure ParseResult where
  name : String
  points : List TrackPoint
  bounds : GeoBounds
  elevRange : ℚ × ℚ
  totalPoints : ℕ
  simplifiedPoints : ℕ
deriving Repr

/-- `gpx_parser.py` `parse_gpx`: an unparsable document raises immediately;
otherwise every point is converted (the loop raises on the first point
with a missing coordinate), then the track is decimated and bounds and
elevation range are computed over the full lists. -/
def parse_gpx (g : GpxDoc) (simplify_factor : ℕ) : Except ExtractError ParseResult :=
  match g with
  | .malformed => .error .parseError
  | .doc name raw =>
    match convPoints raw with
    | .error e => .error e
    | .ok pts =>
      .ok ⟨name.getD "Unknown Track", decimate pts simplify_factor,
           trackBounds pts, elevationRange pts, pts.length,
           (decimate pts simplify_factor).length⟩

/-- In-memory raster as read by `rasterio` (`src.read()` plus metadata):
a list of bands (each a flat pixel list of equal length), whether the
array dtype is `uint8`, the pixel dimensions, and the optional no-data
sentinel. -/
structure RasterData where
  bands : List (List ℚ)
  isU8 : Bool
  width : ℕ
  height : ℕ
  nodata : Option ℚ

/-- `astype(np.uint8)` on a non-negative value within `[0, 255]`:
truncation toward zero, i.e. floor. -/
def u8cast (q : ℚ) : ℚ := ((⌊q⌋ : ℤ) : ℚ)

/-- `np.clip(v, 0, 255)`. -/
def clip255 (q : ℚ) : ℚ := max 0 (min q 255)

/-- `terrain.py` line 61: the validity mask — pixels different from the
declared no-data sentinel, or every pixel when no sentinel is declared. -/
def validPixels (band : List ℚ) (nodata : Option ℚ) : List ℚ :=
  match nodata with
  | some nd => band.filter (fun v => v != nd)
  | none => band

/-- `terrain.py` line 63: `b_min = band[valid_mask].min() if np.any(valid_mask) else 0`. -/
def bandMin (band : List ℚ) (nodata : Option ℚ) : ℚ :=
  let valid := validPixels band nodata
  if valid.isEmpty then 0 else listMin valid

/-- `terrain.py` line 64: `b_max = band[valid_mask].max() if np.any(valid_mask) else 1`. -/
def bandMax (band : List ℚ) (nodata : Option ℚ) : ℚ :=
  let valid := validPixels band nodata
  if valid.isEmpty then 1 else listMax valid

/-- `terrain.py` lines 59-71, the single-band path: linear rescale of the
whole band by the valid-pixel min/max when `b_max > b_min`, all zeros
otherwise, then `np.clip(·, 0, 255).astype(np.uint8)`. -/
def normalizeSingleBand (band : List ℚ) (nodata : Option ℚ) : List ℚ :=
  let bmin := bandMin band nodata
  let bmax := bandMax band nodata
  let normalized :=
    if bmin < bmax then band.map (fun v => (v - bmin) / (bmax - bmin) * 255)
    else band.map (fun _ => (0 : ℚ))
  normalized.map (fun v => u8cast (clip255 v))

/-- `terrain.py` lines 52-72, band handling: with ≥ 3 bands the first three
are stacked and, unless the dtype is already `uint8`, rescaled by one
shared min-max over the whole stack — `none` models the undefined result
of the unguarded division when the stack is constant (`rgb.max() ==
rgb.min()`).  With fewer bands the single-band normalization runs and the
channel is replicated three times. -/
def normalizeBands (r : RasterData) : Option (List ℚ × List ℚ × List ℚ) :=
  if 3 ≤ r.bands.length then
    let b0 := r.bands.getD 0 []
    let b1 := r.bands.getD 1 []
    let b2 := r.bands.getD 2 []
    if r.isU8 then some (b0, b1, b2)
    else
      let m := listMin (b0 ++ b1 ++ b2)
      let bigM := listMax (b0 ++ b1 ++ b2)
      if bigM - m = 0 then none
      else
        some (b0.map (fun v => u8cast ((v - m) / (bigM - m) * 255)),
              b1.map (fun v => u8cast ((v - m) / (bigM - m) * 255)),
              b2.map (fun v => u8cast ((v - m) / (bigM - m) * 255)))
  else
    let n := normalizeSingleBand (r.bands.getD 0 []) r.nodata
    some (n, n, n)

/-- `terrain.py` lines 79-83 (and identically 122-126): the dimension cap —
if either dimension exceeds 2048, both are scaled by the single factor
`min(2048/width, 2048/height)` and truncated with `int()`. -/
def capDims (w h : ℕ) : ℕ × ℕ :=
  if 2048 < w ∨ 2048 < h then
    let r : ℚ := min (2048 / (w : ℚ)) (2048 / (h : ℚ))
    (Int.toNat ⌊(w : ℚ) * r⌋, Int.toNat ⌊(h : ℚ) * r⌋)
  else (w, h)

/-- Texture output of raster/image extraction (`terrain.py` return dict):
the three 8-bit channels (kept symbolically only when no resize happened —
the LANCZOS resampling pass is not modelled pixel-wise), the working
dimensions after the cap, and the recorded pre-resize dimensions. -/
structure TextureResult where
  chans : Option (List ℚ × List ℚ × List ℚ)
  width : ℕ
  height : ℕ
  originalWidth : ℕ
  originalHeight : ℕ

/-- `terrain.py` lines 74-98, after band handling: record the original
size, apply the dimension cap.  `none` propagates the undefined
constant-stack division of `normalizeBands`. -/
def extractTexture (r : RasterData) : Option TextureResult :=
  match normalizeBands r with
  | none => none
  | some c =>
    let wh := capDims r.width r.height
    some ⟨if 2048 < r.width ∨ 2048 < r.height then none else some c,
          wh.1, wh.2, r.width, r.height⟩

/-- `terrain.py` `extract_geotiff_data`, control flow: the `HAS_RASTERIO`
capability flag is tested before the source is opened (`rasterio.open`);
an unreadable raster (`rasterio.open` raising) is the `none` source case.
The reprojected bounds are outside the scope of the modelled claims. -/
def extract_geotiff_data (has_rasterio : Bool) (src : Option RasterData) :
    Except ExtractError (Option TextureResult) :=
  if has_rasterio = false then .error .configurationError
  else
    match src with
    | none => .error .parseError
    | some r => .ok (extractTexture r)

/-- `terrain.py` `extract_from_image`, dimension bookkeeping (lines
119-140): record the original size, apply the same cap. -/
def extract_from_image (w h : ℕ) : TextureResult :=
  let wh := capDims w h
  ⟨none, wh.1, wh.2, w, h⟩

/-- Re-read an extracted texture as a raster source: three 8-bit bands at
the texture's working dimensions (a decoded 8-bit RGB image has no
no-data sentinel). -/
def textureAsRaster (t : TextureResult) : Option RasterData :=
  t.chans.map (fun c => ⟨[c.1, c.2.1, c.2.2], true, t.width, t.height, none⟩)

/-- `terrain.py` lines 156-158: the square zero-filled canvas of side
`max w h` with the image pasted at offset `((max-w)/2, (max-h)/2)`
(PIL `paste`: pixels outside the pasted region keep the fill value 0). -/
def squareCanvas (w h : ℕ) (img : ℕ → ℕ → ℚ) : ℕ → ℕ → ℚ :=
  fun x y =>
    let m := max w h
    let ox := (m - w) / 2
    let oy := (m - h) / 2
    if ox ≤ x ∧ x < ox + w ∧ oy ≤ y ∧ y < oy + h then img (x - ox) (y - oy) else 0

/-- Result of `process_heightmap`: the square canvas stage and the final
resize dimensions. -/
structure HeightmapResult where
  canvasSide : ℕ
  offset : ℕ × ℕ
  canvas : ℕ → ℕ → ℚ
  finalWidth : ℕ
  finalHeight : ℕ

/-- `terrain.py` `process_heightmap`, lines 154-161: square the (already
blurred, single-channel) image of size `w × h` on a zero canvas of side
`max w h` at the centred floor-division offset, then resize to
`target_size × target_size` (the LANCZOS resampling itself is not
modelled pixel-wise; the blurred input is the `img` argument). -/
def process_heightmap (w h : ℕ) (img : ℕ → ℕ → ℚ) (target_size : ℕ) :
    HeightmapResult :=
  let m := max w h
  ⟨m, ((m - w) / 2, (m - h) / 2), squareCanvas w h img, target_size, target_size⟩

theorem le_foldl_max (l : List ℚ) (a : ℚ) : a ≤ l.foldl max a := by
  induction l generalizing a with
  | nil => exact le_refl a
  | cons b t ih => exact le_trans (le_max_left a b) (ih (max a b))

theorem foldl_min_le (l : List ℚ) (a : ℚ) : l.foldl min a ≤ a := by
  induction l generalizing a with
  | nil => exact le_refl a
  | cons b t ih => exact le_trans (ih (min a b)) (min_le_left a b)

theorem listMin_le_listMax {l : List ℚ} (h : l ≠ []) : listMin l ≤ listMax l := by
  cases l with
  | nil => exact absurd rfl h
  | cons x xs =>
    exact le_trans (foldl_min_le xs x) (le_foldl_max xs x)

theorem foldl_min_const {c : ℚ} (l : List ℚ) (a : ℚ) (ha : a = c)
    (hl : ∀ v ∈ l, v = c) : l.foldl min a = c := by
  induction l generalizing a with
  | nil => exact ha
  | cons b t ih =>
    have hb : b = c := hl b (List.mem_cons_self b t)
    exact ih (min a b) (by simp [ha, hb]) (fun v hv => hl v (List.mem_cons_of_mem b hv))

theorem foldl_max_const {c : ℚ} (l : List ℚ) (a : ℚ) (ha : a = c)
    (hl : ∀ v ∈ l, v = c) : l.foldl max a = c := by
  induction l generalizing a with
  | nil => exact ha
  | cons b t ih =>
    have hb : b = c := hl b (List.mem_cons_self b t)
    exact ih (max a b) (by simp [ha, hb]) (fun v hv => hl v (List.mem_cons_of_mem b hv))

theorem listMin_const {c : ℚ} {l : List ℚ} (h : l ≠ []) (hl : ∀ v ∈ l, v = c) :
    listMin l = c := by
  cases l with
  | nil => exact absurd rfl h
  | cons x xs =>
    exact foldl_min_const xs x (hl x (List.mem_cons_self x xs))
      (fun v hv => hl v (List.mem_cons_of_mem x hv))

theorem listMax_const {c : ℚ} {l : List ℚ} (h : l ≠ []) (hl : ∀ v ∈ l, v = c) :
    listMax l = c := by
  cases l with
  | nil => exact absurd rfl h
  | cons x xs =>
    exact foldl_max_const xs x (hl x (List.mem_cons_self x xs))
      (fun v hv => hl v (List.mem_cons_of_mem x hv))

theorem u8cast_clip_nonneg (q : ℚ) : 0 ≤ u8cast (clip255 q) := by
  have h0 : (0 : ℚ) ≤ clip255 q := le_max_left _ _
  have : (0 : ℤ) ≤ ⌊clip255 q⌋ := Int.le_floor.mpr (by exact_mod_cast h0)
  unfold u8cast
  exact_mod_cast this

theorem u8cast_clip_le (q : ℚ) : u8cast (clip255 q) ≤ 255 := by
  have h1 : clip255 q ≤ 255 := max_le (by norm_num) (min_le_right _ _)
  have h2 : ((⌊clip255 q⌋ : ℤ) : ℚ) ≤ clip255 q := Int.floor_le _
  unfold u8cast
  exact le_trans h2 h1

/-- `(n + s - 1) / s` (the length of `range(0, n, s)`) is the ceiling of
`n / s`. -/
theorem ceil_cast_div (n s : ℕ) (hs : 1 ≤ s) :
    ⌈(n : ℚ) / (s : ℚ)⌉₊ = (n + s - 1) / s := by
  have hs0 : 0 < s := hs
  have hsq : (0 : ℚ) < (s : ℚ) := by exact_mod_cast hs0
  rcases Nat.eq_zero_or_pos n with hn | hn
  · subst hn
    simp [Nat.div_eq_of_lt (Nat.sub_lt hs0 Nat.one_pos)]
  · have hmod := Nat.div_add_mod (n + s - 1) s
    have hlt : (n + s - 1) % s < s := Nat.mod_lt _ hs0
    have hk1 : 1 ≤ (n + s - 1) / s := (Nat.one_le_div_iff hs0).mpr (by omega)
    obtain ⟨k, hk⟩ : ∃ k, (n + s - 1) / s = k + 1 := ⟨(n + s - 1) / s - 1, by omega⟩
    have hcomm : s * ((n + s - 1) / s) = ((n + s - 1) / s) * s := Nat.mul_comm _ _
    have hks : ((n + s - 1) / s) * s ≤ n + s - 1 := Nat.div_mul_le_self _ _
    have hnk : n ≤ ((n + s - 1) / s) * s := by omega
    rw [hk] at hnk hks
    have hlow : k * s < n := by
      have h3 : (k + 1) * s = k * s + s := by ring
      omega
    rw [hk]
    apply le_antisymm
    · apply Nat.ceil_le.mpr
      rw [div_le_iff₀ hsq]
      exact_mod_cast hnk
    · apply Nat.add_one_le_ceil_iff.mpr
      rw [lt_div_iff₀ hsq]
      exact_mod_cast hlow

/-- The last entry of a non-empty list, through `getD` at `length - 1`
(Python's `xs[-1]`). -/
theorem getD_last (pts : List TrackPoint) (hne : pts ≠ []) :
    pts.getLast? = some (pts.getD (pts.length - 1) default) := by
  have hlen : 0 < pts.length := List.length_pos.mpr hne
  rw [List.getLast?_eq_getElem?, List.getD_eq_getElem?_getD,
      List.getElem?_eq_getElem (by omega)]
  simp

/-- C2: for every non-empty track and every stride `s ≥ 1`, the last point
of the decimated output equals the last point of the source track. -/
theorem decimate_preserves_last_point (pts : List TrackPoint) (s : ℕ)
    (hne : pts ≠ []) (hs : 1 ≤ s) :
    (decimate pts s).getLast? = pts.getLast? := by
  have hlen : 0 < pts.length := List.length_pos.mpr hne
  simp only [decimate]
  by_cases h : 0 < pts.length ∧ (pts.length - 1) % s ≠ 0
  · rw [if_pos h, List.getLast?_concat, getD_last pts hne]
  · have hmod : (pts.length - 1) % s = 0 := by
      rcases not_and_or.mp h with h1 | h2
      · exact absurd hlen h1
      · exact not_not.mp h2
    rw [if_neg h]
    have hrw : pts.length + s - 1 = (pts.length - 1) + s := by omega
    have hkeq : (pts.length + s - 1) / s = (pts.length - 1) / s + 1 := by
      rw [hrw, Nat.add_div_right _ hs]
    have hmul : (pts.length - 1) / s * s = pts.length - 1 :=
      Nat.div_mul_cancel (Nat.dvd_of_mod_eq_zero hmod)
    rw [List.getLast?_eq_getElem?]
    simp only [List.length_map, List.length_range]
    rw [hkeq]
    simp only [Nat.add_sub_cancel]
    rw [List.getElem?_map, List.getElem?_range (Nat.lt_succ_self _)]
    rw [getD_last pts hne]
    simp [hmul]

/-- Witness for C2 at a concrete two-point track with stride 10. -/
theorem decimate_preserves_last_point_witness :
    ([⟨1, 2, 3⟩, ⟨4, 5, 6⟩] : List TrackPoint) ≠ [] ∧
      (decimate [⟨1, 2, 3⟩, ⟨4, 5, 6⟩] 10).getLast? =
        ([⟨1, 2, 3⟩, ⟨4, 5, 6⟩] : List TrackPoint).getLast? :=
  ⟨by decide, decimate_preserves_last_point _ 10 (by decide) (by decide)⟩

/-- C3: for every track and stride `s ≥ 1`, the decimated length is
`⌈count / s⌉` plus exactly one extra point iff `(count - 1) % s ≠ 0` and
`count > 0`. -/
theorem decimated_length (pts : List TrackPoint) (s : ℕ) (hs : 1 ≤ s) :
    (decimate pts s).length =
      ⌈(pts.length : ℚ) / (s : ℚ)⌉₊ +
        (if 0 < pts.length ∧ (pts.length - 1) % s ≠ 0 then 1 else 0) := by
  rw [ceil_cast_div _ _ hs]
  simp only [decimate]
  by_cases h : 0 < pts.length ∧ (pts.length - 1) % s ≠ 0
  · rw [if_pos h, if_pos h]
    simp
  · rw [if_neg h, if_neg h]
    simp

/-- Witness for C3 at a concrete six-point track with stride 4
(`⌈6/4⌉ = 2`, final index 5 not a multiple of 4, so one extra point). -/
theorem decimated_length_witness :
    (1 ≤ 4) ∧
      (decimate [⟨0, 0, 0⟩, ⟨1, 1, 1⟩, ⟨2, 2, 2⟩, ⟨3, 3, 3⟩, ⟨4, 4, 4⟩, ⟨5, 5, 5⟩] 4).length =
        ⌈(([⟨0, 0, 0⟩, ⟨1, 1, 1⟩, ⟨2, 2, 2⟩, ⟨3, 3, 3⟩, ⟨4, 4, 4⟩, ⟨5, 5, 5⟩] :
            List TrackPoint).length : ℚ) / (4 : ℚ)⌉₊ +
          (if 0 < ([⟨0, 0, 0⟩, ⟨1, 1, 1⟩, ⟨2, 2, 2⟩, ⟨3, 3, 3⟩, ⟨4, 4, 4⟩, ⟨5, 5, 5⟩] :
              List TrackPoint).length ∧
              (([⟨0, 0, 0⟩, ⟨1, 1, 1⟩, ⟨2, 2, 2⟩, ⟨3, 3, 3⟩, ⟨4, 4, 4⟩, ⟨5, 5, 5⟩] :
                List TrackPoint).length - 1) % 4 ≠ 0 then 1 else 0) :=
  ⟨by decide, decimated_length _ 4 (by decide)⟩

/-- C5: the bounding box is the elementwise min/max of the full
latitude/longitude lists and the elevation range the min/max of the full
elevation list, so `north ≥ south` and `east ≥ west` for every non-empty
track; an empty track yields the all-zero sentinel in all six fields. -/
theorem trackBounds_invariant (pts : List TrackPoint) :
    (pts ≠ [] →
      (trackBounds pts).north = listMax (pts.map TrackPoint.lat) ∧
      (trackBounds pts).south = listMin (pts.map TrackPoint.lat) ∧
      (trackBounds pts).east = listMax (pts.map TrackPoint.lon) ∧
      (trackBounds pts).west = listMin (pts.map TrackPoint.lon) ∧
      elevationRange pts =
        (listMin (pts.map TrackPoint.ele), listMax (pts.map TrackPoint.ele)) ∧
      (trackBounds pts).south ≤ (trackBounds pts).north ∧
      (trackBounds pts).west ≤ (trackBounds pts).east) ∧
    (pts = [] → trackBounds pts = ⟨0, 0, 0, 0⟩ ∧ elevationRange pts = (0, 0)) := by
  constructor
  · intro hne
    have hE : pts.isEmpty = false := by
      simpa [List.isEmpty_iff] using hne
    have hlat : pts.map TrackPoint.lat ≠ [] := by simp [hne]
    have hlon : pts.map TrackPoint.lon ≠ [] := by simp [hne]
    refine ⟨?_, ?_, ?_, ?_, ?_, ?_, ?_⟩ <;>
      simp [trackBounds, elevationRange, hE, listMin_le_listMax hlat,
        listMin_le_listMax hlon]
  · intro hnil
    subst hnil
    simp [trackBounds, elevationRange]

/-- Witness for C5 at a concrete two-point track and the empty track. -/
theorem trackBounds_invariant_witness :
    ([⟨3, 7, 100⟩, ⟨-2, 9, 50⟩] : List TrackPoint) ≠ [] ∧
      (trackBounds [⟨3, 7, 100⟩, ⟨-2, 9, 50⟩]).south ≤
        (trackBounds [⟨3, 7, 100⟩, ⟨-2, 9, 50⟩]).north ∧
      trackBounds [] = ⟨0, 0, 0, 0⟩ :=
  ⟨by decide,
   ((trackBounds_invariant [⟨3, 7, 100⟩, ⟨-2, 9, 50⟩]).1 (by decide)).2.2.2.2.2.1,
   ((trackBounds_invariant []).2 rfl).1⟩

/-- C8: with the rasterio capability flag down, raster extraction fails
with the configuration error, and the result does not depend on the
source at all (the check precedes opening the file). -/
theorem extract_geotiff_requires_rasterio (src : Option RasterData) :
    extract_geotiff_data false src = .error .configurationError ∧
    ∀ other : Option RasterData,
      extract_geotiff_data false src = extract_geotiff_data false other := by
  exact ⟨rfl, fun _ => rfl⟩

/-- `convPoint` never fails with anything but the parse error. -/
theorem convPoint_error_eq (q : RawPoint) (e : ExtractError)
    (h : convPoint q = .error e) : e = .parseError := by
  cases hl : q.lat with
  | none =>
    rw [convPoint, hl] at h
    exact (Except.error.injEq _ _).mp h |>.symm
  | some la =>
    cases hlo : q.lon with
    | none =>
      rw [convPoint, hl, hlo] at h
      exact (Except.error.injEq _ _).mp h |>.symm
    | some lo =>
      rw [convPoint, hl, hlo] at h
      exact absurd h (by simp)

/-- Converting a point list with a missing coordinate fails with the
parse error (the loop stops at the first bad point). -/
theorem convPoints_error (raw : List RawPoint)
    (h : ∃ p ∈ raw, p.lat = none ∨ p.lon = none) :
    convPoints raw = Except.error ExtractError.parseError := by
  induction raw with
  | nil => simp at h
  | cons q t ih =>
    rcases h with ⟨p, hp, hmiss⟩
    rcases List.mem_cons.mp hp with rfl | hpt
    · have hc : convPoint p = .error .parseError := by
        cases hl : p.lat with
        | none => rw [convPoint, hl]
        | some la =>
          cases hlo : p.lon with
          | none => rw [convPoint, hl, hlo]
          | some lo =>
            rcases hmiss with h1 | h1
            · rw [hl] at h1; exact absurd h1 (by simp)
            · rw [hlo] at h1; exact absurd h1 (by simp)
      rw [convPoints, hc]
    · have ht := ih ⟨p, hpt, hmiss⟩
      rw [convPoints]
      cases hq : convPoint q with
      | error e => rw [convPoint_error_eq q e hq]
      | ok v => rw [ht]

/-- C9: an unparsable document fails with the parse error, and a document
containing a point with a missing latitude or longitude attribute fails
with the parse error; in both cases no result is produced. -/
theorem parse_gpx_fails_on_malformed (s : ℕ) (name : Option String)
    (raw : List RawPoint) :
    parse_gpx .malformed s = .error .parseError ∧
    ((∃ p ∈ raw, p.lat = none ∨ p.lon = none) →
      parse_gpx (.doc name raw) s = .error .parseError) := by
  constructor
  · rfl
  · intro h
    rw [parse_gpx, convPoints_error raw h]

/-- Witness for C9: the unparsable document and a concrete document whose
single point is missing its latitude. -/
theorem parse_gpx_fails_on_malformed_witness :
    parse_gpx .malformed 10 = .error .parseError ∧
      parse_gpx (.doc none [⟨none, some 2, none⟩]) 10 = .error .parseError :=
  ⟨(parse_gpx_fails_on_malformed 10 none []).1,
   (parse_gpx_fails_on_malformed 10 none [⟨none, some 2, none⟩]).2
     ⟨⟨none, some 2, none⟩, by simp, Or.inl rfl⟩⟩

/-- A degenerate flat band (`b_min == b_max`) normalizes to all zeros, not
a division error (`terrain.py` lines 66-69). -/
theorem normalizeSingleBand_flat (band : List ℚ) (nodata : Option ℚ)
    (h : bandMin band nodata = bandMax band nodata) :
    normalizeSingleBand band nodata = band.map (fun _ => 0) := by
  have hnlt : ¬ bandMin band nodata < bandMax band nodata := by
    rw [h]; exact lt_irrefl _
  rw [normalizeSingleBand]
  rw [if_neg hnlt, List.map_map]
  apply List.map_congr_left
  intro v _
  simp [Function.comp, clip255, u8cast]

/-- C1: single-band normalization — `b_min`/`b_max` default to 0 and 1
when no valid pixel exists; a flat band yields all zeros; every output
value is clamped to `[0, 255]`; the channel is replicated three times;
and with no-data `-9999` and valid range `[0, 1000]` a pixel valued `500`
maps to `127`. -/
theorem single_band_normalization (band : List ℚ) (nodata : Option ℚ) (i : ℕ) :
    (validPixels band nodata = [] →
      bandMin band nodata = 0 ∧ bandMax band nodata = 1) ∧
    (bandMin band nodata = bandMax band nodata →
      normalizeSingleBand band nodata = band.map (fun _ => 0)) ∧
    (∀ v ∈ normalizeSingleBand band nodata, 0 ≤ v ∧ v ≤ 255) ∧
    (∀ r : RasterData, r.bands = [band] → r.nodata = nodata →
      normalizeBands r = some (normalizeSingleBand band nodata,
        normalizeSingleBand band nodata, normalizeSingleBand band nodata)) ∧
    (nodata = some (-9999) → bandMin band nodata = 0 →
      bandMax band nodata = 1000 → i < band.length → band.getD i 0 = 500 →
      (normalizeSingleBand band nodata).getD i 0 = 127) := by
  refine ⟨?_, normalizeSingleBand_flat band nodata, ?_, ?_, ?_⟩
  · intro h
    constructor <;> simp [bandMin, bandMax, h]
  · intro v hv
    rw [normalizeSingleBand] at hv
    rcases List.mem_map.mp hv with ⟨w, _, rfl⟩
    exact ⟨u8cast_clip_nonneg w, u8cast_clip_le w⟩
  · intro r h1 h2
    rw [normalizeBands, h1, h2]
    norm_num
  · intro hnd h0 h1000 hi hv
    have hlen1 : i < (band.map
        (fun v => (v - bandMin band nodata) /
          (bandMax band nodata - bandMin band nodata) * 255)).length := by
      simpa using hi
    have hlt : bandMin band nodata < bandMax band nodata := by
      rw [h0, h1000]; norm_num
    rw [normalizeSingleBand, if_pos hlt]
    rw [List.getD_eq_getElem _ _ (by simpa using hlen1)]
    rw [List.getElem_map, List.getElem_map]
    rw [List.getD_eq_getElem _ _ hi] at hv
    rw [hv, h0, h1000]
    norm_num [clip255, u8cast]

/-- Witness for C1 at the concrete band `[-9999, 0, 500, 1000]` with
no-data sentinel `-9999`: the sentinel is excluded from min/max and the
mid-range pixel maps to 127. -/
theorem single_band_normalization_witness :
    bandMin [-9999, 0, 500, 1000] (some (-9999)) = 0 ∧
      bandMax [-9999, 0, 500, 1000] (some (-9999)) = 1000 ∧
      (normalizeSingleBand [-9999, 0, 500, 1000] (some (-9999))).getD 2 0 = 127 :=
  ⟨by decide, by decide,
   (single_band_normalization [-9999, 0, 500, 1000] (some (-9999)) 2).2.2.2.2
     rfl (by decide) (by decide) (by decide) (by decide)⟩

/-- C10: in the ≥3-band path, a constant-valued non-8-bit stack makes the
shared rescale divisor `rgb.max() - rgb.min()` zero with no guard — the
result is undefined (`none`) — whereas the 1-band path maps a constant
band to all zeros. -/
theorem multiband_constant_zero_divisor (r : RasterData) (c : ℚ)
    (h3 : 3 ≤ r.bands.length) (hu : r.isU8 = false)
    (hne : r.bands.getD 0 [] ≠ [])
    (hconst : ∀ v ∈ r.bands.getD 0 [] ++ r.bands.getD 1 [] ++ r.bands.getD 2 [],
      v = c) :
    normalizeBands r = none ∧
    ∀ band : List ℚ, band ≠ [] → (∀ v ∈ band, v = c) →
      normalizeSingleBand band none = band.map (fun _ => 0) := by
  constructor
  · have hstackne :
        r.bands.getD 0 [] ++ r.bands.getD 1 [] ++ r.bands.getD 2 [] ≠ [] :=
      fun heq =>
        hne (List.append_eq_nil.mp (List.append_eq_nil.mp heq).1).1
    have hm := listMin_const hstackne hconst
    have hM := listMax_const hstackne hconst
    rw [normalizeBands, if_pos h3, hu]
    simp only [Bool.false_eq_true, if_false]
    rw [hm, hM, sub_self]
    simp
  · intro band hbne hc2
    have hE : band.isEmpty = false := by simpa [List.isEmpty_iff] using hbne
    apply normalizeSingleBand_flat
    rw [bandMin, bandMax]
    simp [validPixels, hE, listMin_const hbne hc2, listMax_const hbne hc2]

/-- Witness for C10: a constant three-band non-8-bit raster hits the zero
divisor while the constant single band normalizes to zeros. -/
theorem multiband_constant_zero_divisor_witness :
    normalizeBands ⟨[[5, 5], [5, 5], [5, 5]], false, 2, 1, none⟩ = none ∧
      normalizeSingleBand [5, 5] none = [0, 0] := by
  have h := multiband_constant_zero_divisor
    ⟨[[5, 5], [5, 5], [5, 5]], false, 2, 1, none⟩ 5 (by decide) rfl (by decide)
    (by decide)
  exact ⟨h.1, by rw [h.2 [5, 5] (by decide) (by decide)]; rfl⟩

/-- Both capped dimensions stay within 2048. -/
theorem capDims_le (w h : ℕ) (hw : 0 < w) (hh : 0 < h) :
    (capDims w h).1 ≤ 2048 ∧ (capDims w h).2 ≤ 2048 := by
  by_cases hc : 2048 < w ∨ 2048 < h
  · have hwq : (0 : ℚ) < (w : ℚ) := by exact_mod_cast hw
    have hhq : (0 : ℚ) < (h : ℚ) := by exact_mod_cast hh
    have hbound : ∀ d : ℕ, (0 : ℚ) < (d : ℚ) →
        (d : ℚ) * min (2048 / (w : ℚ)) (2048 / (h : ℚ)) ≤ (d : ℚ) * (2048 / (d : ℚ)) →
        Int.toNat ⌊(d : ℚ) * min (2048 / (w : ℚ)) (2048 / (h : ℚ))⌋ ≤ 2048 := by
      intro d hdq hle
      have heq : (d : ℚ) * (2048 / (d : ℚ)) = 2048 := by field_simp
      have hfl : ⌊(d : ℚ) * min (2048 / (w : ℚ)) (2048 / (h : ℚ))⌋ ≤ 2048 := by
        have h2 := Int.floor_le_floor (le_trans hle (le_of_eq heq))
        simpa using h2
      exact Int.toNat_le.mpr hfl
    rw [capDims, if_pos hc]
    constructor
    · exact hbound w hwq (mul_le_mul_of_nonneg_left (min_le_left _ _) (le_of_lt hwq))
    · exact hbound h hhq (mul_le_mul_of_nonneg_left (min_le_right _ _) (le_of_lt hhq))
  · rw [capDims, if_neg hc]
    push_neg at hc
    exact hc

/-- C4: for positive dimensions the capped output never exceeds 2048 on
either side (both sides scaled by the one shared factor when the cap
fires), the pre-resize dimensions are recorded as the original metadata
by both extractors, and a 4000×1000 source caps to 2048×512. -/
theorem dimension_cap (w h : ℕ) (hw : 0 < w) (hh : 0 < h) :
    (capDims w h).1 ≤ 2048 ∧ (capDims w h).2 ≤ 2048 ∧
    (2048 < w ∨ 2048 < h →
      capDims w h =
        (Int.toNat ⌊(w : ℚ) * min (2048 / (w : ℚ)) (2048 / (h : ℚ))⌋,
         Int.toNat ⌊(h : ℚ) * min (2048 / (w : ℚ)) (2048 / (h : ℚ))⌋)) ∧
    (∀ r : RasterData, r.width = w → r.height = h →
      ∀ t, extractTexture r = some t →
        t.originalWidth = w ∧ t.originalHeight = h ∧
          (t.width, t.height) = capDims w h) ∧
    ((extract_from_image w h).originalWidth = w ∧
     (extract_from_image w h).originalHeight = h ∧
     ((extract_from_image w h).width, (extract_from_image w h).height) =
       capDims w h) ∧
    capDims 4000 1000 = (2048, 512) := by
  refine ⟨(capDims_le w h hw hh).1, (capDims_le w h hw hh).2, ?_, ?_, ?_, ?_⟩
  · intro hc
    rw [capDims, if_pos hc]
  · intro r h1 h2 t ht
    cases hnb : normalizeBands r with
    | none => rw [extractTexture, hnb] at ht; exact absurd ht (by simp)
    | some c =>
      rw [extractTexture, hnb] at ht
      have ht2 := (Option.some.injEq _ _).mp ht
      rw [← ht2, h1, h2]
      exact ⟨rfl, rfl, rfl⟩
  · exact ⟨rfl, rfl, rfl⟩
  · rw [capDims, if_pos (by norm_num)]
    have h1 : ((4000 : ℕ) : ℚ) = 4000 := by norm_num
    have h2 : ((1000 : ℕ) : ℚ) = 1000 := by norm_num
    rw [h1, h2]
    have hmin : min (2048 / (4000 : ℚ)) (2048 / (1000 : ℚ)) = 2048 / 4000 := by
      rw [min_eq_left]
      norm_num
    rw [hmin]
    show (⌊(4000 : ℚ) * (2048 / 4000)⌋.toNat, ⌊(1000 : ℚ) * (2048 / 4000)⌋.toNat) =
      (2048, 512)
    have h3 : (4000 : ℚ) * (2048 / 4000) = 2048 := by norm_num
    have h4 : (1000 : ℚ) * (2048 / 4000) = 512 := by norm_num
    rw [h3, h4]
    norm_num
    decide

/-- Witness for C4 at the concrete 4000×1000 raster. -/
theorem dimension_cap_witness :
    0 < 4000 ∧ (capDims 4000 1000).1 ≤ 2048 ∧ capDims 4000 1000 = (2048, 512) :=
  ⟨by decide, (dimension_cap 4000 1000 (by decide) (by decide)).1,
   (dimension_cap 4000 1000 (by decide) (by decide)).2.2.2.2.2⟩

/-- C6: heightmap squaring — the canvas side is `max w h`, the paste
offset is the floor-division centring `((max-w)/2, (max-h)/2)`, pasted
pixels reproduce the blurred input and everything outside is zero, the
final resize is `target × target`; in particular a 300×200 input pads to
a 300×300 canvas vertically centred at offset `(0, 50)` and resizes to
512×512. -/
theorem heightmap_squaring (w h target : ℕ) (img : ℕ → ℕ → ℚ) :
    (process_heightmap w h img target).canvasSide = max w h ∧
    (process_heightmap w h img target).offset =
      ((max w h - w) / 2, (max w h - h) / 2) ∧
    (∀ x y, x < w → y < h →
      (process_heightmap w h img target).canvas
        ((max w h - w) / 2 + x) ((max w h - h) / 2 + y) = img x y) ∧
    (∀ x y,
      x < (max w h - w) / 2 ∨ (max w h - w) / 2 + w ≤ x ∨
        y < (max w h - h) / 2 ∨ (max w h - h) / 2 + h ≤ y →
      (process_heightmap w h img target).canvas x y = 0) ∧
    (process_heightmap w h img target).finalWidth = target ∧
    (process_heightmap w h img target).finalHeight = target ∧
    (process_heightmap 300 200 img 512).canvasSide = 300 ∧
    (process_heightmap 300 200 img 512).offset = (0, 50) ∧
    (process_heightmap 300 200 img 512).finalWidth = 512 ∧
    (process_heightmap 300 200 img 512).finalHeight = 512 := by
  refine ⟨rfl, rfl, ?_, ?_, rfl, rfl, rfl, rfl, rfl, rfl⟩
  · intro x y hx hy
    show squareCanvas w h img _ _ = img x y
    rw [squareCanvas]
    rw [if_pos]
    · rw [Nat.add_sub_cancel_left, Nat.add_sub_cancel_left]
    · refine ⟨?_, ?_, ?_, ?_⟩ <;> omega
  · intro x y hcase
    show squareCanvas w h img x y = 0
    rw [squareCanvas]
    rw [if_neg]
    intro hmem
    rcases hmem with ⟨h1, h2, h3, h4⟩
    omega

/-- Witness for C6: a pasted pixel of the 300×200 heightmap is recovered
at the centred offset. -/
theorem heightmap_squaring_witness :
    (process_heightmap 300 200 (fun x y => (x * 1000 + y : ℚ)) 512).canvas
        ((max 300 200 - 300) / 2 + 10) ((max 300 200 - 200) / 2 + 20) =
      ((10 : ℚ) * 1000 + 20) ∧
    (process_heightmap 300 200 (fun x y => (x * 1000 + y : ℚ)) 512).offset =
      (0, 50) :=
  ⟨(heightmap_squaring 300 200 512 (fun x y => (x * 1000 + y : ℚ))).2.2.1 10 20
     (by decide) (by decide),
   (heightmap_squaring 300 200 512 (fun x y => (x * 1000 + y : ℚ))).2.2.2.2.2.2.2.1⟩

/-- C7: on an already-8-bit raster within the 2048 cap, re-running the
normalization on the extracted texture (read back as a three-band 8-bit
raster) reproduces the same pixel grid and dimensions. -/
theorem normalization_idempotent (r : RasterData) (t : TextureResult)
    (u : RasterData) (_hu8 : r.isU8 = true)
    (hw : r.width ≤ 2048) (hh : r.height ≤ 2048)
    (ht : extractTexture r = some t) (hru : textureAsRaster t = some u) :
    extractTexture u =
      some ⟨t.chans, t.width, t.height, t.width, t.height⟩ := by
  have hcond : ¬ (2048 < r.width ∨ 2048 < r.height) := by omega
  have hcap : capDims r.width r.height = (r.width, r.height) := by
    rw [capDims, if_neg hcond]
  cases hnb : normalizeBands r with
  | none => rw [extractTexture, hnb] at ht; exact absurd ht (by simp)
  | some c =>
    have hcomp : extractTexture r =
        some ⟨some c, r.width, r.height, r.width, r.height⟩ := by
      simp [extractTexture, hnb, hcap, hcond]
    have ht2 : t = ⟨some c, r.width, r.height, r.width, r.height⟩ := by
      rw [hcomp] at ht
      exact ((Option.some.injEq _ _).mp ht).symm
    subst ht2
    have hcomp2 :
        textureAsRaster ⟨some c, r.width, r.height, r.width, r.height⟩ =
          some ⟨[c.1, c.2.1, c.2.2], true, r.width, r.height, none⟩ := rfl
    rw [hcomp2] at hru
    have hu2 := (Option.some.injEq _ _).mp hru
    subst hu2
    have hnb2 :
        normalizeBands ⟨[c.1, c.2.1, c.2.2], true, r.width, r.height, none⟩ =
          some c := by
      rw [normalizeBands]
      norm_num
    simp [extractTexture, hnb2, hcap, hcond]

/-- Witness for C7 at a concrete 1×1 three-band 8-bit raster. -/
theorem normalization_idempotent_witness :
    extractTexture ⟨[[10], [20], [30]], true, 1, 1, none⟩ =
      some ⟨some ([10], [20], [30]), 1, 1, 1, 1⟩ :=
  normalization_idempotent ⟨[[10], [20], [30]], true, 1, 1, none⟩
    ⟨some ([10], [20], [30]), 1, 1, 1, 1⟩ ⟨[[10], [20], [30]], true, 1, 1, none⟩
    rfl (by norm_num) (by norm_num) rfl rfl
